import Mathlib

/-!
Shallow embedding of the options-strategy pricing pipeline of `MarkPx.py`:
the leg parser `parse_leg_string` and the pricer `mark_px`.  Prices are
modelled as rationals, and the per-leg network fetch outcomes (the values
produced by `get_instrument_mark_price_async`) are supplied as an explicit
list `fetchResults`, one pair `(mark_price?, index_price?)` per leg, in leg
order — exactly the tuples `asyncio.gather` hands back.
-/

/-- Python `str.strip()`: drop leading and trailing whitespace. -/
def pyStrip (s : String) : String :=
  ⟨((s.data.dropWhile Char.isWhitespace).reverse.dropWhile Char.isWhitespace).reverse⟩

/-- ASCII upper-casing of one character, as Python `str.upper` acts on the
ASCII inputs this pipeline receives. -/
def upChar (c : Char) : Char :=
  if c = 'a' then 'A' else if c = 'b' then 'B' else if c = 'c' then 'C' else
  if c = 'd' then 'D' else if c = 'e' then 'E' else if c = 'f' then 'F' else
  if c = 'g' then 'G' else if c = 'h' then 'H' else if c = 'i' then 'I' else
  if c = 'j' then 'J' else if c = 'k' then 'K' else if c = 'l' then 'L' else
  if c = 'm' then 'M' else if c = 'n' then 'N' else if c = 'o' then 'O' else
  if c = 'p' then 'P' else if c = 'q' then 'Q' else if c = 'r' then 'R' else
  if c = 's' then 'S' else if c = 't' then 'T' else if c = 'u' then 'U' else
  if c = 'v' then 'V' else if c = 'w' then 'W' else if c = 'x' then 'X' else
  if c = 'y' then 'Y' else if c = 'z' then 'Z' else c

/-- Python `str.upper()` (ASCII). -/
def upStr (s : String) : String := ⟨s.data.map upChar⟩

/-- Helper for `wsTokens`: `acc` holds the current token's characters reversed. -/
def wsTokensAux : List Char → List Char → List String
  | acc, [] => if acc.isEmpty then [] else [⟨acc.reverse⟩]
  | acc, c :: rest =>
    if c.isWhitespace then
      if acc.isEmpty then wsTokensAux [] rest
      else ⟨acc.reverse⟩ :: wsTokensAux [] rest
    else wsTokensAux (c :: acc) rest

/-- Python `str.split()` with no argument: split on whitespace runs,
discarding empty tokens. -/
def wsTokens (l : List Char) : List String := wsTokensAux [] l

/-- Helper for `splitHy`: `acc` holds the current field's characters reversed. -/
def splitHyAux : List Char → List Char → List String
  | acc, [] => [⟨acc.reverse⟩]
  | acc, c :: rest =>
    if c = '-' then ⟨acc.reverse⟩ :: splitHyAux [] rest
    else splitHyAux (c :: acc) rest

/-- Python `str.split('-')`: split at every hyphen, keeping empty fields. -/
def splitHy (l : List Char) : List String := splitHyAux [] l

/-- Python `'-'.join(parts)`. -/
def joinHy : List String → String
  | [] => ""
  | [s] => s
  | s :: rest => s ++ "-" ++ joinHy rest

/-- Boolean list-level test that `p` is an initial segment of `l`. -/
def headSeg : List Char → List Char → Bool
  | [], _ => true
  | _ :: _, [] => false
  | a :: as, b :: bs => a = b && headSeg as bs

/-- Python `str.startswith(p)`. -/
def startsWithB (s p : String) : Bool := headSeg p.data s.data

/-- Python `str.count('-')` (single-character needle). -/
def countHy (s : String) : Nat := s.data.count '-'

/-- Python `str.isdigit()` on ASCII: non-empty and all decimal digits. -/
def allDigits (s : String) : Bool := !s.data.isEmpty && s.data.all Char.isDigit

/-- Decimal value of a digit string. -/
def digitsToNat (l : List Char) : Nat := l.foldl (fun n c => n * 10 + (c.toNat - 48)) 0

/-- Python `int(s)` restricted to an optional single leading sign followed by
ASCII digits; everything else raises `ValueError`, modelled as `none`. -/
def pyInt (s : String) : Option Int :=
  match s.data with
  | [] => none
  | c :: rest =>
    if c = '+' then
      if !rest.isEmpty && rest.all Char.isDigit then some (Int.ofNat (digitsToNat rest)) else none
    else if c = '-' then
      if !rest.isEmpty && rest.all Char.isDigit then some (-(Int.ofNat (digitsToNat rest))) else none
    else if (c :: rest).all Char.isDigit then some (Int.ofNat (digitsToNat (c :: rest))) else none

/-- Python `s[1:]`. -/
def strDrop1 (s : String) : String := ⟨s.data.drop 1⟩

/-- A parsed strategy leg, the dictionary `parse_leg_string` returns:
`{'instrument': …, 'side': 'buy' | 'sell', 'quantity': …}`. -/
structure Leg where
  instrument : String
  side : String
  quantity : Int
deriving DecidableEq, Repr

/-- The instrument string assembled from the tokens after the quantity token:
one token is used as is, four or three tokens are hyphen-joined, any other
count is a format error. -/
def instrumentOfParts : List String → Option String
  | [i] => some i
  | [a, b, c, d] => some (joinHy [a, b, c, d])
  | [a, b, c] => some (joinHy [a, b, c])
  | _ => none

/-- Quantity-sign auto-correction: a token already signed is kept; an
unsigned all-digit token is turned into a buy by prepending `+` provided the
instrument contains at least two hyphens; otherwise the leg is rejected. -/
def fixSign (q instrument : String) : Option String :=
  if startsWithB q "+" || startsWithB q "-" then some q
  else if allDigits q && decide (2 ≤ countHy instrument) then some ("+" ++ q)
  else none

/-- Default-currency step: prepend `BTC-` unless the instrument already
starts with a known currency. -/
def addCur (instrument : String) : String :=
  if startsWithB instrument "BTC-" || startsWithB instrument "ETH-" ||
     startsWithB instrument "USDC-" then instrument
  else "BTC-" ++ instrument

/-- Abbreviated-strike expansion: only for a `BTC-` instrument splitting into
exactly four hyphen fields whose strike field is all digits of length at most
three; then `000` is appended to the strike. -/
def expandStrike (instrument : String) : String :=
  if startsWithB instrument "BTC-" then
    match splitHy instrument.data with
    | [c, e, st, t] =>
      if allDigits st && decide (st.length ≤ 3) then joinHy [c, e, st ++ "000", t]
      else instrument
    | _ => instrument
  else instrument

/-- Final assembly: side from the sign, quantity from `int(qty_str[1:])`,
which must be positive; the instrument is upper-cased once more. -/
def finishLeg (qty_str instrument : String) : Option Leg :=
  let side := if startsWithB qty_str "+" then "buy" else "sell"
  match pyInt (strDrop1 qty_str) with
  | none => none
  | some q => if q ≤ 0 then none else some ⟨upStr instrument, side, q⟩

/-- `parse_leg_string` of `MarkPx.py`: trim, upper-case and tokenize the
input, assemble the instrument, auto-correct the sign, default the currency,
expand an abbreviated strike, and validate the quantity. -/
def parse_leg_string (leg_string : String) : Option Leg :=
  match wsTokens (upStr (pyStrip leg_string)).data with
  | [] => none
  | [_] => none
  | qty_str :: instrument_parts =>
    match instrumentOfParts instrument_parts with
    | none => none
    | some instrument =>
      match fixSign qty_str instrument with
      | none => none
      | some qty_str1 => finishLeg qty_str1 (expandStrike (addCur instrument))

/-- Parse all leg strings in order; the first failure aborts with the
offending input string (`mark_px` step 1). -/
def parseAll : List String → Except String (List Leg)
  | [] => .ok []
  | s :: rest =>
    match parse_leg_string s with
    | none => .error s
    | some leg =>
      match parseAll rest with
      | .error e => .error e
      | .ok legs => .ok (leg :: legs)

/-- `leg['instrument'].split('-')[0]`: the underlying currency of a leg. -/
def underlying (leg : Leg) : String :=
  match splitHy leg.instrument.data with
  | [] => ""
  | c :: _ => c

/-- `mark_px` step 2: scan the legs carrying the `first_underlying`
variable (initially the empty string, playing Python's falsy `None`); abort
with the pair of differing currencies on the first mismatch, else return the
final `first_underlying`. -/
def currencyScan : String → List Leg → Except (String × String) String
  | first, [] => .ok first
  | first, leg :: rest =>
    let cur := underlying leg
    if first = "" then currencyScan cur rest
    else if first ≠ cur then .error (first, cur)
    else currencyScan first rest

/-- The tuples `asyncio.gather` returns: one `(instrument, mark_price,
index_price)` per leg, in leg order, the instrument being the one requested. -/
def resultsOf (legs : List Leg) (fetchResults : List (Option ℚ × Option ℚ)) :
    List (String × Option ℚ × Option ℚ) :=
  (legs.zip fetchResults).map (fun p => (p.1.instrument, p.2.1, p.2.2))

/-- `price_map` build plus `price_map.get(inst)`: iterate the results in
order, later entries overwriting earlier ones for the same instrument; a
missing key and a stored `None` both read back as `none`. -/
def priceMap (results : List (String × Option ℚ × Option ℚ)) (inst : String) : Option ℚ :=
  results.foldl (fun acc r => if r.1 = inst then r.2.1 else acc) none

/-- The reported index price: the loop sets it only at `i == 0`, so it is
the first result's index price (possibly `none`). -/
def reportIndexPx (results : List (String × Option ℚ × Option ℚ)) : Option ℚ :=
  match results with
  | [] => none
  | r :: _ => r.2.2

/-- Left-justify to width `w` with spaces, Python's `{:<w}`. -/
def ljust (s : String) (w : Nat) : String :=
  s ++ ⟨List.replicate (w - s.length) ' '⟩

/-- Render an integer the way Python's `str` does. -/
def intStr (n : Int) : String :=
  if n < 0 then "-" ++ Nat.repr n.natAbs else Nat.repr n.natAbs

/-- Floor of a rational, computed with floored integer division. -/
def ratFloor (q : ℚ) : ℤ := Int.fdiv q.num (q.den : ℤ)

/-- Round to the nearest integer, ties to even — the rounding of Python's
fixed-point formatting. -/
def rhe (q : ℚ) : ℤ :=
  let f := ratFloor q
  let r := q - (f : ℚ)
  if r < 1 / 2 then f
  else if 1 / 2 < r then f + 1
  else if f % 2 = 0 then f else f + 1

/-- Zero-pad a natural number to four digits. -/
def pad4 (m : Nat) : String :=
  let s := Nat.repr m
  ⟨List.replicate (4 - s.length) '0'⟩ ++ s

/-- Python `format(q, '.4f')`: fixed-point with four decimal places. -/
def fmt4 (q : ℚ) : String :=
  let n := rhe (q * 10000)
  (if n < 0 then "-" else "") ++ Nat.repr (n.natAbs / 10000) ++ "." ++ pad4 (n.natAbs % 10000)

/-- Insert a comma after every three characters of a reversed digit list. -/
def commaGroup : List Char → List Char
  | a :: b :: c :: d :: rest => a :: b :: c :: ',' :: commaGroup (d :: rest)
  | l => l

/-- Python `format(q, ',.0f')`: round to an integer and group thousands. -/
def fmtComma (q : ℚ) : String :=
  let n := rhe q
  (if n < 0 then "-" else "") ++ ⟨(commaGroup (Nat.repr n.natAbs).data.reverse).reverse⟩

/-- The success display line of one leg:
`f" {side.upper():<4} {qty}x {instrument:<22}: {mark:.4f}"`. -/
def pricedLine (leg : Leg) (mark : ℚ) : String :=
  " " ++ ljust (upStr leg.side) 4 ++ " " ++ intStr leg.quantity ++ "x " ++
    ljust leg.instrument 22 ++ ": " ++ fmt4 mark

/-- The failure display line of one leg:
`f" {side.upper():<4} {qty}x {instrument:<22}: ERROR (Price not found)"`. -/
def errorLine (leg : Leg) : String :=
  " " ++ ljust (upStr leg.side) 4 ++ " " ++ intStr leg.quantity ++ "x " ++
    ljust leg.instrument 22 ++ ": ERROR (Price not found)"

/-- `mark_px` step 4 loop body over the state
`(total_strategy_mark_price, price_details, all_legs_fetched_successfully)`. -/
def processLegsAux (pm : String → Option ℚ) :
    ℚ × List String × Bool → List Leg → ℚ × List String × Bool
  | st, [] => st
  | (total, details, ok), leg :: rest =>
    match pm leg.instrument with
    | some m =>
      let lp0 := m * (leg.quantity : ℚ)
      let lp := if leg.side = "sell" then -lp0 else lp0
      processLegsAux pm (total + lp, details ++ [pricedLine leg m], ok) rest
    | none =>
      processLegsAux pm (total, details ++ [errorLine leg], false) rest

/-- `"\n".join(output_lines)`. -/
def joinNl : List String → String
  | [] => ""
  | [s] => s
  | s :: rest => s ++ "\n" ++ joinNl rest

/-- `"\n" + "-" * 40`, the separator pushed before the final line. -/
def sepLine : String := "\n----------------------------------------"

/-- `mark_px` step 5: assemble the output lines and join them. -/
def renderFinal (cur : String) (idx : Option ℚ) (st : ℚ × List String × Bool) : String :=
  let lastLine :=
    if st.2.2 then
      "  Net Combo Mark: " ++ fmt4 st.1 ++ " " ++ cur ++ "\n  Index Ref: $" ++
        (match idx with | some i => fmtComma i | none => "N/A")
    else "  Net Combo Mark: N/A (Could not fetch price for all legs)"
  joinNl (["Combo Mark Price per unit\n"] ++ st.2.1 ++ [sepLine, lastLine])

/-- `mark_px` of `MarkPx.py`, with the per-leg fetch outcomes passed in as
`fetchResults` (the network is the only effect of the original function). -/
def mark_px (strategy_legs_input : List String)
    (fetchResults : List (Option ℚ × Option ℚ)) : String :=
  match parseAll strategy_legs_input with
  | .error bad => "Error: Invalid leg format: '" ++ bad ++ "'"
  | .ok strategy_legs =>
    if strategy_legs.isEmpty then "Error: No valid strategy legs provided."
    else
      match currencyScan "" strategy_legs with
      | .error e =>
        "Error: All legs must have the same underlying currency. Found '" ++
          e.1 ++ "' and '" ++ e.2 ++ "'."
      | .ok cur =>
        let results := resultsOf strategy_legs fetchResults
        renderFinal cur (reportIndexPx results)
          (processLegsAux (priceMap results) (0, [], true) strategy_legs)

/-! Derived descriptions of the pricer's behaviour, used to state the
verified properties. -/

/-- The display line one leg receives, as a function of the price the map
resolves for its instrument. -/
def legLine (pm : String → Option ℚ) (leg : Leg) : String :=
  match pm leg.instrument with
  | some m => pricedLine leg m
  | none => errorLine leg

/-- The signed contribution of one leg to the net combo mark:
`mark_price * quantity`, negated for a sell (a leg that resolved no price
contributes nothing). -/
def signedLegPx (pm : String → Option ℚ) (leg : Leg) : ℚ :=
  (if leg.side = "sell" then -1 else 1) * ((pm leg.instrument).getD 0) * (leg.quantity : ℚ)

/-- The net combo mark: the sum over the legs, in input order, of their
signed contributions. -/
def netSum (pm : String → Option ℚ) (legs : List Leg) : ℚ :=
  (legs.map (signedLegPx pm)).sum

/-- `all_legs_fetched_successfully`: every leg resolved a price. -/
def allFetched (pm : String → Option ℚ) (legs : List Leg) : Bool :=
  legs.all (fun l => (pm l.instrument).isSome)

/-- The last output line: net and index reference on full success, the
`N/A` marker otherwise. -/
def finalLine (cur : String) (idx : Option ℚ) (pm : String → Option ℚ)
    (legs : List Leg) : String :=
  if allFetched pm legs then
    "  Net Combo Mark: " ++ fmt4 (netSum pm legs) ++ " " ++ cur ++ "\n  Index Ref: $" ++
      (match idx with | some i => fmtComma i | none => "N/A")
  else "  Net Combo Mark: N/A (Could not fetch price for all legs)"

/-- The mark price carried by the last result, in leg order, whose
instrument matches `inst` (`none` when there is no such result or the
matching fetch failed). -/
def lastMark (results : List (String × Option ℚ × Option ℚ)) (inst : String) : Option ℚ :=
  match results.reverse.find? (fun r => r.1 == inst) with
  | some r => r.2.1
  | none => none

/-- The underlying of the first leg of `legs` whose underlying differs from
`c` (meaningful when such a leg exists). -/
def firstMismatch (c : String) : List Leg → String
  | [] => c
  | l :: rest => if underlying l ≠ c then underlying l else firstMismatch c rest

/-- Helper for `strContains`. -/
def hasSubAux (n : List Char) : List Char → Bool
  | [] => headSeg n []
  | c :: rest => headSeg n (c :: rest) || hasSubAux n rest

/-- Boolean substring test. -/
def strContains (hay needle : String) : Bool := hasSubAux needle.data hay.data

/-! Structural lemmas about the pricer's aggregation loop. -/

theorem processLegsAux_spec (pm : String → Option ℚ) (legs : List Leg) :
    ∀ (t : ℚ) (ds : List String) (ok : Bool),
    processLegsAux pm (t, ds, ok) legs =
      (t + netSum pm legs, ds ++ legs.map (legLine pm), ok && allFetched pm legs) := by
  induction legs with
  | nil => intro t ds ok; simp [processLegsAux, netSum, allFetched]
  | cons leg rest ih =>
    intro t ds ok
    cases h : pm leg.instrument with
    | some m =>
      have hline : legLine pm leg = pricedLine leg m := by simp [legLine, h]
      by_cases hs : leg.side = "sell" <;>
        simp [processLegsAux, h, ih, netSum, allFetched, signedLegPx, hline, hs,
          mul_comm, mul_assoc, mul_left_comm] <;> ring_nf
    | none =>
      have hline : legLine pm leg = errorLine leg := by simp [legLine, h]
      simp [processLegsAux, h, ih, netSum, allFetched, signedLegPx, hline]

theorem mark_px_ok_spec (input : List String) (fr : List (Option ℚ × Option ℚ))
    (legs : List Leg) (cur : String)
    (hp : parseAll input = Except.ok legs) (hne : legs.isEmpty = false)
    (hc : currencyScan "" legs = Except.ok cur) :
    mark_px input fr =
      joinNl (["Combo Mark Price per unit\n"] ++
        legs.map (legLine (priceMap (resultsOf legs fr))) ++
        [sepLine, finalLine cur (reportIndexPx (resultsOf legs fr))
          (priceMap (resultsOf legs fr)) legs]) := by
  unfold mark_px
  rw [hp]
  dsimp only
  rw [hne, hc]
  dsimp only [renderFinal]
  rw [processLegsAux_spec]
  simp [finalLine, netSum]

theorem priceMap_foldl (inst : String) (rs : List (String × Option ℚ × Option ℚ)) :
    ∀ acc : Option ℚ,
    rs.foldl (fun acc r => if r.1 = inst then r.2.1 else acc) acc =
      match rs.reverse.find? (fun r => r.1 == inst) with
      | some r => r.2.1
      | none => acc := by
  induction rs with
  | nil => intro acc; rfl
  | cons r rs ih =>
    intro acc
    rw [List.foldl_cons, ih, List.reverse_cons, List.find?_append]
    cases h : rs.reverse.find? (fun r => r.1 == inst) with
    | some x => simp
    | none =>
      by_cases hr : r.1 = inst <;> simp [hr]

theorem priceMap_eq_lastMark (rs : List (String × Option ℚ × Option ℚ)) (inst : String) :
    priceMap rs inst = lastMark rs inst := by
  rw [priceMap, priceMap_foldl, lastMark]

theorem resultsOf_cons (leg : Leg) (legs : List Leg) (f : Option ℚ × Option ℚ)
    (fr : List (Option ℚ × Option ℚ)) :
    resultsOf (leg :: legs) (f :: fr) =
      (leg.instrument, f.1, f.2) :: resultsOf legs fr := by
  simp [resultsOf, List.zip_cons_cons]

theorem resultsOf_firsts (legs : List Leg) :
    ∀ fr : List (Option ℚ × Option ℚ), fr.length = legs.length →
    (resultsOf legs fr).map (fun r => r.1) = legs.map (fun l => l.instrument) := by
  induction legs with
  | nil => intro fr _; rfl
  | cons leg rest ih =>
    intro fr hlen
    cases fr with
    | nil => simp at hlen
    | cons f fr' =>
      simp only [List.length_cons, Nat.succ.injEq] at hlen
      rw [resultsOf_cons, List.map_cons, ih fr' hlen, List.map_cons]

theorem priceMap_of_nodup (legs : List Leg) :
    ∀ (fr : List (Option ℚ × Option ℚ)), fr.length = legs.length →
    (legs.map (fun l => l.instrument)).Nodup →
    ∀ (i : Nat) (hi : i < legs.length) (hif : i < fr.length),
    priceMap (resultsOf legs fr) (legs.get ⟨i, hi⟩).instrument = (fr.get ⟨i, hif⟩).1 := by
  induction legs with
  | nil => intro fr _ _ i hi _; exact absurd hi (Nat.not_lt_zero i)
  | cons leg rest ih =>
    intro fr hlen hdup i hi hif
    cases fr with
    | nil => simp at hlen
    | cons f fr' =>
      simp only [List.length_cons, Nat.succ.injEq] at hlen
      rw [resultsOf_cons]
      simp only [List.map_cons, List.nodup_cons] at hdup
      cases i with
      | zero =>
        simp only [List.get]
        rw [priceMap, List.foldl_cons, priceMap_foldl]
        have hnone : (resultsOf rest fr').reverse.find?
            (fun r => r.1 == leg.instrument) = none := by
          rw [List.find?_eq_none]
          intro x hx
          rw [List.mem_reverse] at hx
          have : x.1 ∈ (resultsOf rest fr').map (fun r => r.1) := List.mem_map_of_mem _ hx
          rw [resultsOf_firsts rest fr' hlen] at this
          simp only [beq_iff_eq]
          intro hEq
          exact hdup.1 (hEq ▸ this)
        rw [hnone]
        simp
      | succ j =>
        simp only [List.get]
        have hj : j < rest.length := Nat.lt_of_succ_lt_succ hi
        have hjf : j < fr'.length := Nat.lt_of_succ_lt_succ hif
        rw [priceMap, List.foldl_cons, priceMap_foldl]
        have hsome : ((resultsOf rest fr').reverse.find?
            (fun r => r.1 == (rest.get ⟨j, hj⟩).instrument)).isSome := by
          rw [List.find?_isSome]
          refine ⟨((rest.get ⟨j, hj⟩).instrument, (fr'.get ⟨j, hjf⟩).1, (fr'.get ⟨j, hjf⟩).2), ?_, by simp⟩
          rw [List.mem_reverse]
          have hmem : ((rest.get ⟨j, hj⟩), (fr'.get ⟨j, hjf⟩)) ∈ rest.zip fr' := by
            rw [List.mem_iff_get]
            refine ⟨⟨j, by rw [List.length_zip]; omega⟩, ?_⟩
            simp [List.getElem_zip]
          have := List.mem_map_of_mem
            (fun p : Leg × (Option ℚ × Option ℚ) => (p.1.instrument, p.2.1, p.2.2)) hmem
          exact this
        cases hfind : (resultsOf rest fr').reverse.find?
            (fun r => r.1 == (rest.get ⟨j, hj⟩).instrument) with
        | none => rw [hfind] at hsome; simp at hsome
        | some x =>
          have := ih fr' hlen hdup.2 j hj hjf
          rw [priceMap, priceMap_foldl, hfind] at this
          exact this

/-! Parsing and validation lemmas. -/

theorem parseAll_first_failure (pre : List String) (bad : String) (post : List String)
    (hpre : ∀ s ∈ pre, (parse_leg_string s).isSome)
    (hbad : parse_leg_string bad = none) :
    parseAll (pre ++ bad :: post) = Except.error bad := by
  induction pre with
  | nil => simp [parseAll, hbad]
  | cons s pre' ih =>
    have hs : (parse_leg_string s).isSome := hpre s (List.mem_cons_self s pre')
    cases h : parse_leg_string s with
    | none => rw [h] at hs; simp at hs
    | some leg =>
      have ih' := ih (fun x hx => hpre x (List.mem_cons_of_mem s hx))
      simp [parseAll, h, ih']

theorem parseAll_mem (input : List String) :
    ∀ legs : List Leg, parseAll input = Except.ok legs →
    ∀ leg ∈ legs, ∃ s ∈ input, parse_leg_string s = some leg := by
  induction input with
  | nil =>
    intro legs h leg hleg
    simp only [parseAll] at h
    cases h
    simp at hleg
  | cons s rest ih =>
    intro legs h leg hleg
    simp only [parseAll] at h
    cases hs : parse_leg_string s with
    | none => rw [hs] at h; cases h
    | some l0 =>
      rw [hs] at h
      cases hr : parseAll rest with
      | error e => rw [hr] at h; cases h
      | ok legs' =>
        rw [hr] at h
        cases h
        rcases List.mem_cons.mp hleg with h0 | h1
        · exact ⟨s, List.mem_cons_self s rest, h0 ▸ hs⟩
        · obtain ⟨t, ht, hpt⟩ := ih legs' hr leg h1
          exact ⟨t, List.mem_cons_of_mem s ht, hpt⟩

theorem currencyScan_mismatch (first : String) (hf : first ≠ "") :
    ∀ legs : List Leg, (∃ l ∈ legs, underlying l ≠ first) →
    currencyScan first legs = Except.error (first, firstMismatch first legs) ∧
      firstMismatch first legs ≠ first := by
  intro legs
  induction legs with
  | nil => intro h; simp at h
  | cons leg rest ih =>
    intro h
    by_cases hl : underlying leg = first
    · have hrest : ∃ l ∈ rest, underlying l ≠ first := by
        rcases h with ⟨l, hml, hne⟩
        rcases List.mem_cons.mp hml with rfl | hm
        · exact absurd hl hne
        · exact ⟨l, hm, hne⟩
      obtain ⟨h1, h2⟩ := ih hrest
      constructor
      · simp only [currencyScan, firstMismatch]
        rw [if_neg hf, if_neg (by simp [hl]), if_neg (by simp [hl])]
        exact h1
      · simp only [firstMismatch]
        rw [if_neg (by simp [hl])]
        exact h2
    · constructor
      · simp only [currencyScan, firstMismatch]
        rw [if_neg hf, if_pos (Ne.symm hl), if_pos hl]
      · simp only [firstMismatch]
        rw [if_pos hl]
        exact hl

/-! String-level helper lemmas. -/

theorem data_append (s t : String) : (s ++ t).data = s.data ++ t.data := by
  cases s; cases t; rfl

theorem headSeg_iff (p : List Char) : ∀ l, headSeg p l = true ↔ ∃ t, l = p ++ t := by
  induction p with
  | nil => intro l; simp [headSeg]
  | cons a as ih =>
    intro l
    cases l with
    | nil => simp [headSeg]
    | cons b bs =>
      simp only [headSeg, Bool.and_eq_true, decide_eq_true_eq, ih bs]
      constructor
      · rintro ⟨rfl, t, rfl⟩; exact ⟨t, rfl⟩
      · rintro ⟨t, ht⟩
        cases ht
        exact ⟨rfl, t, rfl⟩

theorem headSeg_self_append (l t : List Char) : headSeg l (l ++ t) = true := by
  rw [headSeg_iff]; exact ⟨t, rfl⟩

theorem startsWithB_append_self (p s : String) : startsWithB (p ++ s) p = true := by
  rw [startsWithB, data_append]; exact headSeg_self_append p.data s.data

theorem upChar_idem (c : Char) : upChar (upChar c) = upChar c := by
  by_cases h1 : c = 'a'
  · subst h1; decide
  by_cases h2 : c = 'b'
  · subst h2; decide
  by_cases h3 : c = 'c'
  · subst h3; decide
  by_cases h4 : c = 'd'
  · subst h4; decide
  by_cases h5 : c = 'e'
  · subst h5; decide
  by_cases h6 : c = 'f'
  · subst h6; decide
  by_cases h7 : c = 'g'
  · subst h7; decide
  by_cases h8 : c = 'h'
  · subst h8; decide
  by_cases h9 : c = 'i'
  · subst h9; decide
  by_cases h10 : c = 'j'
  · subst h10; decide
  by_cases h11 : c = 'k'
  · subst h11; decide
  by_cases h12 : c = 'l'
  · subst h12; decide
  by_cases h13 : c = 'm'
  · subst h13; decide
  by_cases h14 : c = 'n'
  · subst h14; decide
  by_cases h15 : c = 'o'
  · subst h15; decide
  by_cases h16 : c = 'p'
  · subst h16; decide
  by_cases h17 : c = 'q'
  · subst h17; decide
  by_cases h18 : c = 'r'
  · subst h18; decide
  by_cases h19 : c = 's'
  · subst h19; decide
  by_cases h20 : c = 't'
  · subst h20; decide
  by_cases h21 : c = 'u'
  · subst h21; decide
  by_cases h22 : c = 'v'
  · subst h22; decide
  by_cases h23 : c = 'w'
  · subst h23; decide
  by_cases h24 : c = 'x'
  · subst h24; decide
  by_cases h25 : c = 'y'
  · subst h25; decide
  by_cases h26 : c = 'z'
  · subst h26; decide
  have hc : upChar c = c := by
    simp only [upChar, if_neg h1, if_neg h2, if_neg h3, if_neg h4, if_neg h5, if_neg h6, if_neg h7, if_neg h8, if_neg h9, if_neg h10, if_neg h11, if_neg h12, if_neg h13, if_neg h14, if_neg h15, if_neg h16, if_neg h17, if_neg h18, if_neg h19, if_neg h20, if_neg h21, if_neg h22, if_neg h23, if_neg h24, if_neg h25, if_neg h26]
  rw [hc]
  exact hc

theorem upStr_idem (s : String) : upStr (upStr s) = upStr s := by
  cases s with
  | mk d =>
    simp only [upStr, List.map_map]
    congr 1
    induction d with
    | nil => rfl
    | cons c cs ih => simp [Function.comp, upChar_idem, ih]

theorem upStr_starts (s p : String) (hp : p.data.map upChar = p.data)
    (h : startsWithB s p = true) : startsWithB (upStr s) p = true := by
  rw [startsWithB, headSeg_iff] at h ⊢
  obtain ⟨t, ht⟩ := h
  refine ⟨t.map upChar, ?_⟩
  show (upStr s).data = p.data ++ t.map upChar
  rw [upStr, ht]
  simp [hp]

theorem splitHyAux_flat (t : List Char) :
    ∀ (l acc : List Char), (∀ c ∈ l, c ≠ '-') →
    splitHyAux acc (l ++ '-' :: t) = ⟨acc.reverse ++ l⟩ :: splitHy t := by
  intro l
  induction l with
  | nil => intro acc _; simp [splitHyAux, splitHy]
  | cons c l' ih =>
    intro acc hl
    have hc : c ≠ '-' := hl c (List.mem_cons_self c l')
    simp only [List.cons_append, splitHyAux, if_neg hc]
    have hrec := ih (c :: acc) (fun x hx => hl x (List.mem_cons_of_mem c hx))
    simp only [List.append_eq] at hrec ⊢
    rw [hrec]
    simp

theorem splitHy_flat (l t : List Char) (hl : ∀ c ∈ l, c ≠ '-') :
    splitHy (l ++ '-' :: t) = ⟨l⟩ :: splitHy t := by
  rw [splitHy, splitHyAux_flat t l [] hl]
  simp

theorem underlying_of_data (leg : Leg) (l t : List Char)
    (hd : leg.instrument.data = l ++ '-' :: t) (hl : ∀ c ∈ l, c ≠ '-') :
    underlying leg = ⟨l⟩ := by
  rw [underlying, hd, splitHy_flat l t hl]

/-! Shape of the instruments the parser produces. -/

theorem parse_instrument_shape (s : String) (leg : Leg)
    (h : parse_leg_string s = some leg) :
    ∃ instr : String, leg.instrument = upStr (expandStrike (addCur instr)) := by
  unfold parse_leg_string at h
  cases htok : wsTokens (upStr (pyStrip s)).data with
  | nil => rw [htok] at h; exact Option.noConfusion h
  | cons qty_str tl =>
  rw [htok] at h
  cases tl with
  | nil => exact Option.noConfusion h
  | cons p1 ps =>
    dsimp only at h
    cases hio : instrumentOfParts (p1 :: ps) with
    | none => rw [hio] at h; exact Option.noConfusion h
    | some instrument =>
      rw [hio] at h
      dsimp only at h
      cases hfs : fixSign qty_str instrument with
      | none => rw [hfs] at h; exact Option.noConfusion h
      | some qs =>
        rw [hfs] at h
        dsimp only at h
        unfold finishLeg at h
        cases hq : pyInt (strDrop1 qs) with
        | none => rw [hq] at h; exact Option.noConfusion h
        | some q =>
          rw [hq] at h
          dsimp only at h
          split at h
          · exact Option.noConfusion h
          · cases h
            exact ⟨instrument, rfl⟩

theorem addCur_starts (i : String) :
    startsWithB (addCur i) "BTC-" = true ∨ startsWithB (addCur i) "ETH-" = true ∨
      startsWithB (addCur i) "USDC-" = true := by
  unfold addCur
  split
  · rename_i h
    simp only [Bool.or_eq_true] at h
    rcases h with (h | h) | h
    · exact Or.inl h
    · exact Or.inr (Or.inl h)
    · exact Or.inr (Or.inr h)
  · exact Or.inl (startsWithB_append_self "BTC-" i)

theorem expandStrike_of_BTC (i : String) (hb : startsWithB i "BTC-" = true) :
    startsWithB (expandStrike i) "BTC-" = true := by
  obtain ⟨t, ht⟩ := (headSeg_iff _ _).mp hb
  have hdata : i.data = ['B', 'T', 'C'] ++ '-' :: t := ht
  have hsplit : splitHy i.data = (⟨['B', 'T', 'C']⟩ : String) :: splitHy t := by
    rw [hdata]
    exact splitHy_flat ['B', 'T', 'C'] t (by decide)
  rw [expandStrike, if_pos hb, hsplit]
  rcases hrest : splitHy t with _ | ⟨e, _ | ⟨st, _ | ⟨t4, _ | more⟩⟩⟩
  · exact hb
  · exact hb
  · exact hb
  · dsimp only
    split
    · rw [startsWithB, headSeg_iff]
      refine ⟨(joinHy [e, st ++ "000", t4]).data, ?_⟩
      show (joinHy ((⟨['B', 'T', 'C']⟩ : String) :: [e, st ++ "000", t4])).data = _
      have hj : joinHy ((⟨['B', 'T', 'C']⟩ : String) :: [e, st ++ "000", t4]) =
          (⟨['B', 'T', 'C']⟩ : String) ++ "-" ++ joinHy [e, st ++ "000", t4] := rfl
      rw [hj, data_append, data_append]
      rfl
    · exact hb
  · exact hb

theorem expandStrike_starts (i : String)
    (h : startsWithB i "BTC-" = true ∨ startsWithB i "ETH-" = true ∨
      startsWithB i "USDC-" = true) :
    startsWithB (expandStrike i) "BTC-" = true ∨
      startsWithB (expandStrike i) "ETH-" = true ∨
      startsWithB (expandStrike i) "USDC-" = true := by
  by_cases hb : startsWithB i "BTC-" = true
  · exact Or.inl (expandStrike_of_BTC i hb)
  · rw [expandStrike, if_neg (by simp [hb])]
    exact h

theorem parse_starts (s : String) (leg : Leg) (h : parse_leg_string s = some leg) :
    startsWithB leg.instrument "BTC-" = true ∨ startsWithB leg.instrument "ETH-" = true ∨
      startsWithB leg.instrument "USDC-" = true := by
  obtain ⟨instr, hi⟩ := parse_instrument_shape s leg h
  rw [hi]
  rcases expandStrike_starts _ (addCur_starts instr) with h2 | h2 | h2
  · exact Or.inl (upStr_starts _ _ (by decide) h2)
  · exact Or.inr (Or.inl (upStr_starts _ _ (by decide) h2))
  · exact Or.inr (Or.inr (upStr_starts _ _ (by decide) h2))

theorem parse_upper (s : String) (leg : Leg) (h : parse_leg_string s = some leg) :
    upStr leg.instrument = leg.instrument := by
  obtain ⟨instr, hi⟩ := parse_instrument_shape s leg h
  rw [hi, upStr_idem]

theorem underlying_of_starts (leg : Leg) (p : String) (l : List Char)
    (hp : p.data = l ++ ['-']) (hl : ∀ c ∈ l, c ≠ '-')
    (h : startsWithB leg.instrument p = true) : underlying leg = ⟨l⟩ := by
  obtain ⟨t, ht⟩ := (headSeg_iff _ _).mp h
  refine underlying_of_data leg l t ?_ hl
  rw [ht, hp]
  simp

theorem parse_underlying (s : String) (leg : Leg) (h : parse_leg_string s = some leg) :
    underlying leg = "BTC" ∨ underlying leg = "ETH" ∨ underlying leg = "USDC" := by
  rcases parse_starts s leg h with hs | hs | hs
  · exact Or.inl (underlying_of_starts leg "BTC-" ['B', 'T', 'C'] rfl (by decide) hs)
  · exact Or.inr (Or.inl (underlying_of_starts leg "ETH-" ['E', 'T', 'H'] rfl (by decide) hs))
  · exact Or.inr (Or.inr (underlying_of_starts leg "USDC-" ['U', 'S', 'D', 'C'] rfl (by decide) hs))

theorem parse_underlying_ne (s : String) (leg : Leg) (h : parse_leg_string s = some leg) :
    underlying leg ≠ "" := by
  rcases parse_underlying s leg h with hu | hu | hu <;> rw [hu] <;> decide

/-! Quantity-token lemmas. -/

theorem strEta (s : String) : (⟨s.data⟩ : String) = s := by cases s; rfl

theorem digits_not_sign (q : String) (hq : allDigits q = true) :
    startsWithB q "+" = false ∧ startsWithB q "-" = false := by
  rcases hd : q.data with _ | ⟨c, rest⟩
  · rw [allDigits, hd] at hq; simp at hq
  · rw [allDigits, hd] at hq
    simp only [List.all_cons, Bool.and_eq_true] at hq
    have hc : c.isDigit = true := hq.2.1
    have h1 : ¬('+' = c) := by intro h; rw [← h] at hc; exact absurd hc (by decide)
    have h2 : ¬('-' = c) := by intro h; rw [← h] at hc; exact absurd hc (by decide)
    constructor <;> (rw [startsWithB, hd]; simp [headSeg, h1, h2])

theorem pyInt_of_digits (q : String) (hq : allDigits q = true) :
    pyInt q = some (Int.ofNat (digitsToNat q.data)) := by
  rcases hd : q.data with _ | ⟨c, rest⟩
  · rw [allDigits, hd] at hq; simp at hq
  · rw [allDigits, hd] at hq
    simp only [List.all_cons, Bool.and_eq_true] at hq
    have hc : c.isDigit = true := hq.2.1
    have h1 : ¬(c = '+') := by intro h; rw [h] at hc; exact absurd hc (by decide)
    have h2 : ¬(c = '-') := by intro h; rw [h] at hc; exact absurd hc (by decide)
    unfold pyInt
    rw [hd]
    dsimp only
    rw [if_neg h1, if_neg h2, if_pos (by simp [hq.2.1, hq.2.2])]

/-! Per-leg line lemmas under distinct instruments. -/

theorem legLines_of_nodup (legs : List Leg) (fr : List (Option ℚ × Option ℚ))
    (hlen : fr.length = legs.length)
    (hdup : (legs.map (fun l => l.instrument)).Nodup) :
    legs.map (legLine (priceMap (resultsOf legs fr))) =
      (legs.zip fr).map (fun p =>
        match p.2.1 with
        | some m => pricedLine p.1 m
        | none => errorLine p.1) := by
  apply List.ext_get
  · simp [List.length_zip, hlen]
  · intro i h1 h2
    have hi : i < legs.length := by simpa using h1
    have hif : i < fr.length := by rw [hlen]; exact hi
    have hpm := priceMap_of_nodup legs fr hlen hdup i hi hif
    rw [List.get_map, List.get_map, List.get_zip]

    dsimp only
    rw [legLine, hpm]

theorem allFetched_false_of_fail (legs : List Leg) (fr : List (Option ℚ × Option ℚ))
    (hlen : fr.length = legs.length)
    (hdup : (legs.map (fun l => l.instrument)).Nodup)
    (hfail : ∃ i : Fin fr.length, (fr.get i).1 = none) :
    allFetched (priceMap (resultsOf legs fr)) legs = false := by
  obtain ⟨⟨i, hif⟩, hnone⟩ := hfail
  have hi : i < legs.length := by rw [← hlen]; exact hif
  have hpm := priceMap_of_nodup legs fr hlen hdup i hi hif
  rw [allFetched, List.all_eq_false]
  refine ⟨legs.get ⟨i, hi⟩, List.get_mem legs i hi, ?_⟩
  rw [hpm, hnone]
  simp

/-! The verified claims. -/

/-- C1: for every strategy whose legs all parse, share one currency, and all
resolve a non-null mark price, `mark_px` reports a net combo mark equal to
the sum over legs in input order of `mark_price * quantity`, negated for
sell legs (`netSum`), rendered to 4 decimal places followed by the shared
currency. -/
theorem mark_px_full_success (input : List String) (fr : List (Option ℚ × Option ℚ))
    (legs : List Leg) (cur : String)
    (hp : parseAll input = Except.ok legs) (hne : legs.isEmpty = false)
    (hc : currencyScan "" legs = Except.ok cur)
    (hall : allFetched (priceMap (resultsOf legs fr)) legs = true) :
    mark_px input fr =
      joinNl (["Combo Mark Price per unit\n"] ++
        legs.map (legLine (priceMap (resultsOf legs fr))) ++
        [sepLine,
          "  Net Combo Mark: " ++ fmt4 (netSum (priceMap (resultsOf legs fr)) legs) ++
            " " ++ cur ++ "\n  Index Ref: $" ++
            (match reportIndexPx (resultsOf legs fr) with
              | some i => fmtComma i
              | none => "N/A")]) := by
  rw [mark_px_ok_spec input fr legs cur hp hne hc]
  unfold finalLine
  rw [if_pos hall]

set_option maxRecDepth 4000 in
/-- Witness for C1, the spec's own example: legs `+1 X` at 0.10 and `-2 Y`
at 0.05 give a net of 0.10·1 − 0.05·2 = 0, displayed as `0.0000 BTC`. -/
theorem mark_px_full_success_witness :
    mark_px ["+1 BTC-26SEP25-95000-P", "-2 BTC-26SEP25-130000-C"]
        [(some (1/10), some 109000), (some (1/20), none)] =
      "Combo Mark Price per unit\n\n BUY  1x BTC-26SEP25-95000-P   : 0.1000\n SELL 2x BTC-26SEP25-130000-C  : 0.0500\n\n----------------------------------------\n  Net Combo Mark: 0.0000 BTC\n  Index Ref: $109,000" := by
  have h := mark_px_full_success
    ["+1 BTC-26SEP25-95000-P", "-2 BTC-26SEP25-130000-C"]
    [(some (1/10), some 109000), (some (1/20), none)]
    [⟨"BTC-26SEP25-95000-P", "buy", 1⟩, ⟨"BTC-26SEP25-130000-C", "sell", 2⟩] "BTC"
    (by rfl) (by rfl) (by rfl) (by with_unfolding_all decide)
  exact h.trans (by with_unfolding_all decide)

/-- C3: if some leg string fails to parse, `mark_px` returns an error
carrying exactly the first failing string; no later string matters and no
fetch result is consulted (the conclusion holds for every `fr` and every
`post`). -/
theorem mark_px_parse_failfast (pre : List String) (bad : String) (post : List String)
    (fr : List (Option ℚ × Option ℚ))
    (hpre : ∀ s ∈ pre, (parse_leg_string s).isSome)
    (hbad : parse_leg_string bad = none) :
    mark_px (pre ++ bad :: post) fr = "Error: Invalid leg format: '" ++ bad ++ "'" := by
  unfold mark_px
  rw [parseAll_first_failure pre bad post hpre hbad]

/-- Witness for C3: a failing second leg aborts with that string even though
a third (also invalid) leg follows and a fetch result is available. -/
theorem mark_px_parse_failfast_witness :
    mark_px ["+1 BTC-26SEP25-95000-P", "oops", "+1 ETH-26SEP25-4000-C"]
        [(some 5, some 5)] =
      "Error: Invalid leg format: 'oops'" := by
  have h := mark_px_parse_failfast ["+1 BTC-26SEP25-95000-P"] "oops"
    ["+1 ETH-26SEP25-4000-C"] [(some 5, some 5)] (by decide) (by decide)
  exact h.trans (by decide)

/-- C4: if some leg's currency prefix differs from the first leg's,
`mark_px` aborts with an error naming the first leg's currency and the first
differing one; the conclusion holds for every `fr`, so no fetch result is
consulted. -/
theorem mark_px_currency_mismatch (input : List String) (fr : List (Option ℚ × Option ℚ))
    (leg0 : Leg) (rest : List Leg)
    (hp : parseAll input = Except.ok (leg0 :: rest))
    (hdiff : ∃ l ∈ rest, underlying l ≠ underlying leg0) :
    firstMismatch (underlying leg0) rest ≠ underlying leg0 ∧
    mark_px input fr =
      "Error: All legs must have the same underlying currency. Found '" ++
        underlying leg0 ++ "' and '" ++ firstMismatch (underlying leg0) rest ++ "'." := by
  obtain ⟨s, _, hs⟩ := parseAll_mem input (leg0 :: rest) hp leg0 (List.mem_cons_self _ _)
  have hne0 := parse_underlying_ne s leg0 hs
  obtain ⟨hscan, hnem⟩ := currencyScan_mismatch (underlying leg0) hne0 rest hdiff
  refine ⟨hnem, ?_⟩
  unfold mark_px
  rw [hp]
  dsimp only
  have hscan0 : currencyScan "" (leg0 :: rest) =
      Except.error (underlying leg0, firstMismatch (underlying leg0) rest) := by
    simp only [currencyScan, if_pos rfl]
    exact hscan
  simp only [List.isEmpty_cons, Bool.false_eq_true, if_false, hscan0]

/-- Witness for C4, the spec's own example: a BTC leg next to an ETH leg is
rejected naming both currencies, with no fetch results supplied at all. -/
theorem mark_px_currency_mismatch_witness :
    mark_px ["+1 BTC-26SEP25-95000-P", "-1 ETH-26SEP25-4000-C"] [] =
      "Error: All legs must have the same underlying currency. Found 'BTC' and 'ETH'." := by
  have h := (mark_px_currency_mismatch ["+1 BTC-26SEP25-95000-P", "-1 ETH-26SEP25-4000-C"] []
    ⟨"BTC-26SEP25-95000-P", "buy", 1⟩ [⟨"ETH-26SEP25-4000-C", "sell", 1⟩]
    (by rfl) (by decide)).2
  exact h.trans (by decide)

theorem parse_unsigned_buy (input q : String) (tparts : List String) (instr : String)
    (htok : wsTokens (upStr (pyStrip input)).data = q :: tparts)
    (hio : instrumentOfParts tparts = some instr)
    (hq : allDigits q = true)
    (hpos : 0 < digitsToNat q.data)
    (hhy : 2 ≤ countHy instr) :
    parse_leg_string input =
      some ⟨upStr (expandStrike (addCur instr)), "buy", (digitsToNat q.data : ℤ)⟩ := by
  obtain ⟨hq1, hq2⟩ := digits_not_sign q hq
  unfold parse_leg_string
  rw [htok]
  cases tparts with
  | nil => simp [instrumentOfParts] at hio
  | cons p1 ps =>
    dsimp only
    rw [hio]
    dsimp only
    rw [fixSign, if_neg (by simp [hq1, hq2]), if_pos (by simp [hq, hhy])]
    dsimp only
    rw [finishLeg]
    have hdrop : strDrop1 ("+" ++ q) = q := by
      rw [strDrop1, data_append]
      exact strEta q
    rw [hdrop, pyInt_of_digits q hq]
    dsimp only
    rw [if_neg (by simp; omega), if_pos (startsWithB_append_self "+" q)]
    rw [Int.ofNat_eq_coe]

/-- C5 (amended): an unsigned purely-numeric quantity token with positive
value is treated as a buy of that quantity (a zero quantity is rejected, see
the counterexample); the assembled instrument gets `BTC-` prepended unless it
starts with a known currency, and an abbreviated all-digit strike of length
at most 3 in a four-field `BTC-` instrument gets `000` appended; in
particular the two inputs of the claim parse to
`BTC-26SEP25-95000-P, buy, 1`. -/
theorem parse_unsigned_buy_correct :
    (∀ (input q : String) (tparts : List String) (instr : String),
      wsTokens (upStr (pyStrip input)).data = q :: tparts →
      instrumentOfParts tparts = some instr →
      allDigits q = true → 0 < digitsToNat q.data → 2 ≤ countHy instr →
      parse_leg_string input =
        some ⟨upStr (expandStrike (addCur instr)), "buy", (digitsToNat q.data : ℤ)⟩) ∧
    parse_leg_string "1 26SEP25-95000-P" = some ⟨"BTC-26SEP25-95000-P", "buy", 1⟩ ∧
    parse_leg_string "+1 26SEP25-95-P" = some ⟨"BTC-26SEP25-95000-P", "buy", 1⟩ :=
  ⟨parse_unsigned_buy, by decide, by decide⟩

/-- Counterexample to C5 as stated: `"0"` is an unsigned purely-numeric
token and the instrument has two hyphens, yet the leg is not treated as a
buy of quantity 0 — `parse_leg_string` rejects it. -/
theorem parse_unsigned_zero_cex :
    allDigits "0" = true ∧ countHy "26SEP25-95000-P" = 2 ∧
      parse_leg_string "0 26SEP25-95000-P" = none := by decide

/-- Witness for C5: a spaced three-token instrument with an unsigned
quantity of 3, currency-defaulted and strike-expanded. -/
theorem parse_unsigned_buy_correct_witness :
    parse_leg_string "3 26DEC25 95 P" = some ⟨"BTC-26DEC25-95000-P", "buy", 3⟩ := by
  have h := parse_unsigned_buy_correct.1 "3 26DEC25 95 P" "3" ["26DEC25", "95", "P"]
    "26DEC25-95-P" (by decide) (by decide) (by decide) (by decide) (by decide)
  exact h.trans (by decide)

/-- C9 (amended): every leg `parse_leg_string` returns has an instrument
that starts with `BTC-`, `ETH-` or `USDC-` and is upper-case (fixed by
`upStr`); the four-hyphen-field shape claimed for all accepted inputs fails,
see the counterexample. -/
theorem parse_instrument_invariant (s : String) (leg : Leg)
    (h : parse_leg_string s = some leg) :
    (startsWithB leg.instrument "BTC-" = true ∨ startsWithB leg.instrument "ETH-" = true ∨
      startsWithB leg.instrument "USDC-" = true) ∧
      upStr leg.instrument = leg.instrument :=
  ⟨parse_starts s leg h, parse_upper s leg h⟩

/-- Counterexample to C9 as stated: `"+1 BTC-X"` is accepted and produces
the instrument `BTC-X`, which has two hyphen-separated fields, not four. -/
theorem parse_four_fields_cex :
    parse_leg_string "+1 BTC-X" = some ⟨"BTC-X", "buy", 1⟩ ∧
      (splitHy ("BTC-X" : String).data).length = 2 := by decide

/-- Witness for C9: the invariant at a concrete accepted input. -/
theorem parse_instrument_invariant_witness :
    (startsWithB (Leg.mk "ETH-27JUN25-4000-C" "sell" 2).instrument "BTC-" = true ∨
      startsWithB (Leg.mk "ETH-27JUN25-4000-C" "sell" 2).instrument "ETH-" = true ∨
      startsWithB (Leg.mk "ETH-27JUN25-4000-C" "sell" 2).instrument "USDC-" = true) ∧
      upStr (Leg.mk "ETH-27JUN25-4000-C" "sell" 2).instrument =
        (Leg.mk "ETH-27JUN25-4000-C" "sell" 2).instrument :=
  parse_instrument_invariant "-2 ETH-27JUN25-4000-C" ⟨"ETH-27JUN25-4000-C", "sell", 2⟩
    (by decide)

/-- C2 (amended): for legs with pairwise distinct instruments (the
counterexample shows duplicates break the per-leg attribution), a request in
which at least one fetch fails and at least one succeeds still yields a
complete report: each leg's line is its priced line or `ERROR (Price not
found)` according to its own fetch, every leg appears, and the net line is
the `N/A` marker — never a net computed from the successful legs only. -/
theorem mark_px_partial_failure (input : List String) (fr : List (Option ℚ × Option ℚ))
    (legs : List Leg) (cur : String)
    (hp : parseAll input = Except.ok legs) (hne : legs.isEmpty = false)
    (hc : currencyScan "" legs = Except.ok cur)
    (hlen : fr.length = legs.length)
    (hdup : (legs.map (fun l => l.instrument)).Nodup)
    (hfail : ∃ i : Fin fr.length, (fr.get i).1 = none)
    (hsucc : ∃ i : Fin fr.length, (fr.get i).1.isSome) :
    mark_px input fr =
      joinNl (["Combo Mark Price per unit\n"] ++
        (legs.zip fr).map (fun p =>
          match p.2.1 with
          | some m => pricedLine p.1 m
          | none => errorLine p.1) ++
        [sepLine, "  Net Combo Mark: N/A (Could not fetch price for all legs)"]) := by
  rw [mark_px_ok_spec input fr legs cur hp hne hc,
    legLines_of_nodup legs fr hlen hdup]
  have hAF := allFetched_false_of_fail legs fr hlen hdup hfail
  unfold finalLine
  rw [if_neg (by simp [hAF])]

set_option maxRecDepth 8000 in
/-- Counterexample to C2 as stated: two legs naming the same instrument,
where the first fetch fails and the second succeeds at price 1.  The failed
leg's line does not read `ERROR (Price not found)` and the net line is not
the `N/A` marker — both legs are priced from the second fetch and a net is
computed. -/
theorem mark_px_partial_failure_cex :
    mark_px ["+1 BTC-26SEP25-95000-P", "+1 BTC-26SEP25-95000-P"]
        [(none, none), (some 1, none)] =
      "Combo Mark Price per unit\n\n BUY  1x BTC-26SEP25-95000-P   : 1.0000\n BUY  1x BTC-26SEP25-95000-P   : 1.0000\n\n----------------------------------------\n  Net Combo Mark: 2.0000 BTC\n  Index Ref: $N/A" ∧
    strContains (mark_px ["+1 BTC-26SEP25-95000-P", "+1 BTC-26SEP25-95000-P"]
      [(none, none), (some 1, none)]) "ERROR" = false ∧
    strContains (mark_px ["+1 BTC-26SEP25-95000-P", "+1 BTC-26SEP25-95000-P"]
      [(none, none), (some 1, none)]) "N/A (Could not fetch price for all legs)" = false := by
  refine ⟨by with_unfolding_all decide, by with_unfolding_all decide,
    by with_unfolding_all decide⟩

set_option maxRecDepth 8000 in
/-- Witness for C2: distinct instruments, first fetch fails, second
succeeds: one `ERROR` line, one priced line, `N/A` net. -/
theorem mark_px_partial_failure_witness :
    mark_px ["+1 BTC-26SEP25-95000-P", "-2 BTC-26SEP25-130000-C"]
        [(none, none), (some (1/20), some 109000)] =
      "Combo Mark Price per unit\n\n BUY  1x BTC-26SEP25-95000-P   : ERROR (Price not found)\n SELL 2x BTC-26SEP25-130000-C  : 0.0500\n\n----------------------------------------\n  Net Combo Mark: N/A (Could not fetch price for all legs)" := by
  have h := mark_px_partial_failure
    ["+1 BTC-26SEP25-95000-P", "-2 BTC-26SEP25-130000-C"]
    [(none, none), (some (1/20), some 109000)]
    [⟨"BTC-26SEP25-95000-P", "buy", 1⟩, ⟨"BTC-26SEP25-130000-C", "sell", 2⟩] "BTC"
    (by rfl) (by rfl) (by rfl) (by rfl) (by decide)
    ⟨⟨0, by decide⟩, by decide⟩ ⟨⟨1, by decide⟩, by decide⟩
  exact h.trans (by with_unfolding_all decide)

/-- C6 (amended): only the first leg's quote result is consulted for the
index price: whenever the first leg's result carries no index price, the
report renders `Index Ref: $N/A`, even if a later leg's result carries one
(the fetches after the first are unconstrained here); the claim's rule
"first leg whose result has a non-null index price" fails, see the
counterexample. -/
theorem mark_px_index_first_leg_only (input : List String)
    (fr : List (Option ℚ × Option ℚ)) (legs : List Leg) (cur : String)
    (f0 : Option ℚ × Option ℚ) (frRest : List (Option ℚ × Option ℚ))
    (hp : parseAll input = Except.ok legs) (hne : legs.isEmpty = false)
    (hc : currencyScan "" legs = Except.ok cur)
    (hfr : fr = f0 :: frRest) (hidx : f0.2 = none)
    (hall : allFetched (priceMap (resultsOf legs fr)) legs = true) :
    mark_px input fr =
      joinNl (["Combo Mark Price per unit\n"] ++
        legs.map (legLine (priceMap (resultsOf legs fr))) ++
        [sepLine,
          "  Net Combo Mark: " ++ fmt4 (netSum (priceMap (resultsOf legs fr)) legs) ++
            " " ++ cur ++ "\n  Index Ref: $" ++ "N/A"]) := by
  rw [mark_px_ok_spec input fr legs cur hp hne hc]
  unfold finalLine
  rw [if_pos hall]
  have hri : reportIndexPx (resultsOf legs fr) = none := by
    cases legs with
    | nil => simp at hne
    | cons l0 lrest =>
      rw [hfr, resultsOf_cons, reportIndexPx]
      exact hidx
  rw [hri]

set_option maxRecDepth 8000 in
/-- Counterexample to C6 as stated: the first leg's result has a null index
price and the second leg's result carries 50000, yet the report shows
`Index Ref: $N/A` and nowhere the later leg's index price `50,000`. -/
theorem mark_px_index_cex :
    strContains (mark_px ["+1 BTC-26SEP25-95000-P", "-2 BTC-26SEP25-130000-C"]
      [(some 1, none), (some 2, some 50000)]) "Index Ref: $N/A" = true ∧
    strContains (mark_px ["+1 BTC-26SEP25-95000-P", "-2 BTC-26SEP25-130000-C"]
      [(some 1, none), (some 2, some 50000)]) "50,000" = false := by
  refine ⟨by with_unfolding_all decide, by with_unfolding_all decide⟩

set_option maxRecDepth 8000 in
/-- Witness for C6: both fetches succeed, the first without an index price,
the second with index price 4000; the report still shows `$N/A`. -/
theorem mark_px_index_first_leg_only_witness :
    mark_px ["+1 BTC-26SEP25-95000-P", "-2 BTC-26SEP25-130000-C"]
        [(some (1/10), none), (some (1/20), some 4000)] =
      "Combo Mark Price per unit\n\n BUY  1x BTC-26SEP25-95000-P   : 0.1000\n SELL 2x BTC-26SEP25-130000-C  : 0.0500\n\n----------------------------------------\n  Net Combo Mark: 0.0000 BTC\n  Index Ref: $N/A" := by
  have h := mark_px_index_first_leg_only
    ["+1 BTC-26SEP25-95000-P", "-2 BTC-26SEP25-130000-C"]
    [(some (1/10), none), (some (1/20), some 4000)]
    [⟨"BTC-26SEP25-95000-P", "buy", 1⟩, ⟨"BTC-26SEP25-130000-C", "sell", 2⟩] "BTC"
    (some (1/10), none) [(some (1/20), some 4000)]
    (by rfl) (by rfl) (by rfl) (by rfl) (by rfl) (by with_unfolding_all decide)
  exact h.trans (by with_unfolding_all decide)

/-- C7 (amended): in a two-leg request with distinct instruments where the
first leg's fetch fails and the second succeeds, the report consists of the
header, an error line, a priced line, the separator, and the `N/A` net line
only — there is no `Index Ref` line at all (the claim's expected
`Index Ref: N/A` line does not appear, see the counterexample), so the
second leg's index price is not reported. -/
theorem mark_px_first_leg_fail_no_index (input : List String)
    (fr : List (Option ℚ × Option ℚ)) (l0 l1 : Leg) (cur : String)
    (f0 : Option ℚ × Option ℚ) (m1 : ℚ) (i1 : Option ℚ)
    (hp : parseAll input = Except.ok [l0, l1])
    (hc : currencyScan "" [l0, l1] = Except.ok cur)
    (hfr : fr = [f0, (some m1, i1)]) (hf0 : f0.1 = none)
    (hne : l0.instrument ≠ l1.instrument) :
    mark_px input fr =
      joinNl ["Combo Mark Price per unit\n", errorLine l0, pricedLine l1 m1, sepLine,
        "  Net Combo Mark: N/A (Could not fetch price for all legs)"] := by
  subst hfr
  rw [mark_px_ok_spec input _ [l0, l1] cur hp rfl hc]
  have hrs : resultsOf [l0, l1] [f0, (some m1, i1)] =
      [(l0.instrument, f0.1, f0.2), (l1.instrument, some m1, i1)] := by
    simp [resultsOf]
  have hpm0 : priceMap (resultsOf [l0, l1] [f0, (some m1, i1)]) l0.instrument = none := by
    rw [hrs, priceMap]
    simp only [List.foldl_cons, List.foldl_nil]
    rw [if_neg (fun h => hne (Eq.symm h))]
    simp [hf0]
  have hpm1 : priceMap (resultsOf [l0, l1] [f0, (some m1, i1)]) l1.instrument = some m1 := by
    rw [hrs, priceMap]
    simp only [List.foldl_cons, List.foldl_nil]
    simp
  have hAF : allFetched (priceMap (resultsOf [l0, l1] [f0, (some m1, i1)])) [l0, l1] = false := by
    rw [allFetched]
    simp [hpm0]
  unfold finalLine
  rw [if_neg (by simp [hAF])]
  simp [legLine, hpm0, hpm1, joinNl]

set_option maxRecDepth 8000 in
/-- Counterexample to C7 as stated: first fetch fails, second succeeds with
an index price, and the report contains no `Index Ref` substring at all —
in particular no `Index Ref: N/A` line. -/
theorem mark_px_no_index_line_cex :
    strContains (mark_px ["+1 BTC-26SEP25-95000-P", "-2 BTC-26SEP25-130000-C"]
      [(none, none), (some (1/20), some 109000)]) "Index Ref" = false := by
  with_unfolding_all decide

set_option maxRecDepth 8000 in
/-- Witness for C7: the second leg's fetch succeeds with index price 90000,
yet the report has four content lines and no index reference. -/
theorem mark_px_first_leg_fail_no_index_witness :
    mark_px ["+1 BTC-26SEP25-95000-P", "-2 BTC-26SEP25-130000-C"]
        [(none, none), (some (1/4), some 90000)] =
      "Combo Mark Price per unit\n\n BUY  1x BTC-26SEP25-95000-P   : ERROR (Price not found)\n SELL 2x BTC-26SEP25-130000-C  : 0.2500\n\n----------------------------------------\n  Net Combo Mark: N/A (Could not fetch price for all legs)" := by
  have h := mark_px_first_leg_fail_no_index
    ["+1 BTC-26SEP25-95000-P", "-2 BTC-26SEP25-130000-C"]
    [(none, none), (some (1/4), some 90000)]
    ⟨"BTC-26SEP25-95000-P", "buy", 1⟩ ⟨"BTC-26SEP25-130000-C", "sell", 2⟩ "BTC"
    (none, none) (1/4) (some 90000)
    (by rfl) (by rfl) (by rfl) (by rfl) (by decide)
  exact h.trans (by with_unfolding_all decide)

/-- C8 (amended): the per-leg report lines appear in the caller-supplied
input order (line `i` is the line of leg `i`), and when the legs'
instruments are pairwise distinct each leg's line is its priced line exactly
when its own fetch returned a non-null mark price; with duplicate
instruments the attribution is by last fetch instead, see the
counterexample. -/
theorem mark_px_lines_in_order (input : List String) (fr : List (Option ℚ × Option ℚ))
    (legs : List Leg) (cur : String)
    (hp : parseAll input = Except.ok legs) (hne : legs.isEmpty = false)
    (hc : currencyScan "" legs = Except.ok cur) :
    mark_px input fr =
      joinNl (["Combo Mark Price per unit\n"] ++
        legs.map (legLine (priceMap (resultsOf legs fr))) ++
        [sepLine, finalLine cur (reportIndexPx (resultsOf legs fr))
          (priceMap (resultsOf legs fr)) legs]) ∧
    ((legs.map (fun l => l.instrument)).Nodup → fr.length = legs.length →
      ∀ (i : Nat) (hi : i < legs.length) (hif : i < fr.length),
        legLine (priceMap (resultsOf legs fr)) (legs.get ⟨i, hi⟩) =
          match (fr.get ⟨i, hif⟩).1 with
          | some m => pricedLine (legs.get ⟨i, hi⟩) m
          | none => errorLine (legs.get ⟨i, hi⟩)) := by
  refine ⟨mark_px_ok_spec input fr legs cur hp hne hc, ?_⟩
  intro hdup hlen i hi hif
  rw [legLine, priceMap_of_nodup legs fr hlen hdup i hi hif]

set_option maxRecDepth 8000 in
/-- Counterexample to C8 as stated: two legs name the same instrument, the
first leg's own fetch returns mark 3, yet its line is the error line (and
`3.0000` appears nowhere) because the second, failed fetch overwrote the
map entry. -/
theorem mark_px_own_fetch_cex :
    mark_px ["+2 BTC-26SEP25-95000-P", "+1 BTC-26SEP25-95000-P"]
        [(some 3, none), (none, none)] =
      "Combo Mark Price per unit\n\n BUY  2x BTC-26SEP25-95000-P   : ERROR (Price not found)\n BUY  1x BTC-26SEP25-95000-P   : ERROR (Price not found)\n\n----------------------------------------\n  Net Combo Mark: N/A (Could not fetch price for all legs)" ∧
    strContains (mark_px ["+2 BTC-26SEP25-95000-P", "+1 BTC-26SEP25-95000-P"]
      [(some 3, none), (none, none)]) "3.0000" = false := by
  refine ⟨by with_unfolding_all decide, by with_unfolding_all decide⟩

set_option maxRecDepth 8000 in
/-- Witness for C8: distinct instruments, first fetch succeeds at 1.5 while
the second fails; the lines keep input order and each reflects its own
fetch. -/
theorem mark_px_lines_in_order_witness :
    mark_px ["+1 BTC-26SEP25-95000-P", "-2 BTC-26SEP25-130000-C"]
        [(some (3/2), some 101000), (none, none)] =
      "Combo Mark Price per unit\n\n BUY  1x BTC-26SEP25-95000-P   : 1.5000\n SELL 2x BTC-26SEP25-130000-C  : ERROR (Price not found)\n\n----------------------------------------\n  Net Combo Mark: N/A (Could not fetch price for all legs)" := by
  have h := (mark_px_lines_in_order
    ["+1 BTC-26SEP25-95000-P", "-2 BTC-26SEP25-130000-C"]
    [(some (3/2), some 101000), (none, none)]
    [⟨"BTC-26SEP25-95000-P", "buy", 1⟩, ⟨"BTC-26SEP25-130000-C", "sell", 2⟩] "BTC"
    (by rfl) (by rfl) (by rfl)).1
  exact h.trans (by with_unfolding_all decide)

/-- C10: `mark_px` keys fetched results by instrument name, so every leg's
line is determined by the mark price of the last fetch, in leg order, for
that leg's instrument (`lastMark`); in particular all legs sharing an
instrument uniformly show that last fetch's outcome even when the
duplicates' own fetch outcomes differ. -/
theorem mark_px_last_fetch_wins (input : List String) (fr : List (Option ℚ × Option ℚ))
    (legs : List Leg) (cur : String)
    (hp : parseAll input = Except.ok legs) (hne : legs.isEmpty = false)
    (hc : currencyScan "" legs = Except.ok cur) :
    mark_px input fr =
      joinNl (["Combo Mark Price per unit\n"] ++
        legs.map (fun leg =>
          match lastMark (resultsOf legs fr) leg.instrument with
          | some m => pricedLine leg m
          | none => errorLine leg) ++
        [sepLine, finalLine cur (reportIndexPx (resultsOf legs fr))
          (priceMap (resultsOf legs fr)) legs]) := by
  rw [mark_px_ok_spec input fr legs cur hp hne hc]
  have hmap : legs.map (legLine (priceMap (resultsOf legs fr))) =
      legs.map (fun leg =>
        match lastMark (resultsOf legs fr) leg.instrument with
        | some m => pricedLine leg m
        | none => errorLine leg) := by
    refine List.map_congr_left ?_
    intro leg _
    rw [legLine, priceMap_eq_lastMark]
  rw [hmap]

set_option maxRecDepth 8000 in
/-- Witness for C10: two legs name the same instrument; the first fetch
returns 0.10 and the second 0.25, and both lines show 0.2500, the last
fetch's mark. -/
theorem mark_px_last_fetch_wins_witness :
    mark_px ["+1 BTC-26SEP25-95000-P", "+2 BTC-26SEP25-95000-P"]
        [(some (1/10), none), (some (1/4), some 90000)] =
      "Combo Mark Price per unit\n\n BUY  1x BTC-26SEP25-95000-P   : 0.2500\n BUY  2x BTC-26SEP25-95000-P   : 0.2500\n\n----------------------------------------\n  Net Combo Mark: 0.7500 BTC\n  Index Ref: $N/A" := by
  have h := mark_px_last_fetch_wins
    ["+1 BTC-26SEP25-95000-P", "+2 BTC-26SEP25-95000-P"]
    [(some (1/10), none), (some (1/4), some 90000)]
    [⟨"BTC-26SEP25-95000-P", "buy", 1⟩, ⟨"BTC-26SEP25-95000-P", "buy", 2⟩] "BTC"
    (by rfl) (by rfl) (by rfl)
  exact h.trans (by with_unfolding_all decide)
